import Mathlib

/-!
Shallow embedding of the linux-system-monitor program (src/main.cpp):
the sampling/derivation engine (CPU counters, memory info, per-process
samples), the delta computations of the main loop, the sort comparators,
the previous-tick table refresh, and the kill-by-PID modal input loop.
Floating-point percentages of the source are modelled over ℚ; C++
`long`/`long long` counters are modelled as ℤ (their 64-bit overflow is
not reachable in any property below), while `std::stoi`'s 32-bit `int`
range is modelled explicitly because its out-of-range exception is
observable behaviour.
-/

namespace SysMon

/-- Character class of C `isspace`, skipped by `operator>>` and by
`std::stoi`/`std::stol` before reading a value. -/
def isSpaceCh (c : Char) : Bool :=
  c = ' ' || c = '\t' || c = '\n' || c = '\r' || c = '\x0b' || c = '\x0c'

/-- Characters removed from the end of a process name by
`erase(find_last_not_of(" \n\r\t") + 1)`. -/
def isTrimCh (c : Char) : Bool :=
  c = ' ' || c = '\n' || c = '\r' || c = '\t'

/-- Split a character list into maximal whitespace-free tokens, the way
repeated `stringstream >> tok` extractions walk a line. -/
def splitWsAux : List Char → List Char → List (List Char)
  | [], acc => if acc.isEmpty then [] else [acc.reverse]
  | c :: cs, acc =>
    if isSpaceCh c then
      if acc.isEmpty then splitWsAux cs [] else acc.reverse :: splitWsAux cs []
    else splitWsAux cs (c :: acc)

/-- The whitespace-delimited fields of a line. -/
def fieldsOf (s : String) : List String :=
  (splitWsAux s.data []).map fun l => ⟨l⟩

/-- `line.rfind(pre, 0) == 0`: a prefix test. -/
def strStarts (pre s : String) : Bool := pre.data.isPrefixOf s.data

/-- Value of a run of decimal digits, most significant first. -/
def digitsVal (ds : List Char) : ℤ :=
  ds.foldl (fun acc c => 10 * acc + ((c.toNat : ℤ) - 48)) 0

/-- The optional-sign-then-digit-run integer at the head of `cs`;
`none` when no digit follows the optional sign (C++ "no conversion"). -/
def intAt (cs : List Char) : Option ℤ :=
  match cs with
  | '-' :: rest =>
    let ds := rest.takeWhile Char.isDigit
    if ds.isEmpty then none else some (-(digitsVal ds))
  | '+' :: rest =>
    let ds := rest.takeWhile Char.isDigit
    if ds.isEmpty then none else some (digitsVal ds)
  | _ =>
    let ds := cs.takeWhile Char.isDigit
    if ds.isEmpty then none else some (digitsVal ds)

def intMaxC : ℤ := 2147483647

def intMinC : ℤ := -2147483648

/-- `std::stoi` as observed through its callers' `catch (...)`: skip
leading whitespace, read an optional sign and a digit run; `none` when
there is no digit (`invalid_argument` thrown and caught) or the value
does not fit a 32-bit `int` (`out_of_range` thrown and caught). -/
def stoiCaught (s : String) : Option ℤ :=
  match intAt (s.data.dropWhile isSpaceCh) with
  | none => none
  | some v => if v < intMinC ∨ intMaxC < v then none else some v

/-- A `stringstream >> (long long)` extraction of one token: the token's
leading integer, or 0 when extraction fails (C++11 writes 0 on failure;
the `{0}`-initialised fields keep 0 when the token is missing). -/
def readLL (tok : Option String) : ℤ :=
  (tok.bind fun t => intAt t.data).getD 0

/-- `std::stol` on a suffix of a `VmRSS:` line: skips leading whitespace
then reads the integer. A throwing parse would crash the program; no
claim reaches that case, and it is modelled as 0. -/
def stolField (cs : List Char) : ℤ :=
  (intAt (cs.dropWhile isSpaceCh)).getD 0

/-- `SysCpuTimes`: the eight cumulative counters of the first
`/proc/stat` line plus the derived `total`. -/
structure SysCpuTimes where
  user : ℤ
  nice : ℤ
  system : ℤ
  idle : ℤ
  iowait : ℤ
  irq : ℤ
  softirq : ℤ
  steal : ℤ
  total : ℤ
deriving DecidableEq

/-- `getSystemCpuTimes`, applied to the first line read from
`/proc/stat` (the empty string when the file is unreadable): on a
`cpu`-prefixed line the label and eight counters are stream-extracted
and `total` is set to their sum; otherwise the `{0}`-initialised sample
is returned unchanged. -/
def getSystemCpuTimes (line : String) : SysCpuTimes :=
  if strStarts "cpu" line then
    let tk := fieldsOf line
    let f := fun i => readLL tk[i]?
    { user := f 1, nice := f 2, system := f 3, idle := f 4,
      iowait := f 5, irq := f 6, softirq := f 7, steal := f 8,
      total := f 1 + f 2 + f 3 + f 4 + f 5 + f 6 + f 7 + f 8 }
  else
    { user := 0, nice := 0, system := 0, idle := 0, iowait := 0,
      irq := 0, softirq := 0, steal := 0, total := 0 }

/-- A derived per-process sample (struct `Process`). -/
structure Process where
  pid : ℤ
  user : String
  name : String
  cpuPercent : ℚ
  memPercent : ℚ
  memRssKb : ℤ
  utime : ℤ
  stime : ℤ
deriving DecidableEq

/-- One consistent snapshot of the pseudo-filesystem the program reads:
the `/proc` directory entries, each pid's first `stat` line, each pid's
`status` lines, the `/proc/meminfo` lines, and the first `/proc/stat`
line. `none` models a file that cannot be opened. -/
structure ProcFs where
  entries : List String
  stat : ℤ → Option String
  status : ℤ → Option (List String)
  meminfo : List String
  sysStatLine : String

/-- Uid extraction inside `getUsername`: the loop stops at the first
`Uid:`-prefixed line and runs `ss >> key >> uid`; `uid` keeps its
initial 0 when no such line exists or the extraction fails. (The
`uid_t`-wraparound of a negative token is not modelled; no claim
reaches it.) -/
def uidFromStatus (lines : List String) : ℕ :=
  match lines.find? (fun l => strStarts "Uid:" l) with
  | none => 0
  | some l => ((((fieldsOf l)[1]?).bind fun t => intAt t.data).map Int.toNat).getD 0

/-- `getUsername`: reopen `/proc/[pid]/status`, read the uid from the
first `Uid:` line, and resolve it through the username cache; an
unreadable file yields "n/a", a cache miss yields "unknown". -/
def getUsername (fs : ProcFs) (cache : ℕ → Option String) (pid : ℤ) : String :=
  match fs.status pid with
  | none => "n/a"
  | some lines =>
    match cache (uidFromStatus lines) with
    | some name => name
    | none => "unknown"

/-- The `status`-file scan of `getProcesses`: every line is examined,
later matches overwrite earlier ones; `substr(6)`/`substr(7)` drop the
key and one separator character, the name is trailing-trimmed, and the
resident size is read with `std::stol`. Starts from the
`{0}`-initialised name/size. -/
def statusScan (lines : List String) : String × ℤ :=
  lines.foldl
    (fun nr l =>
      if strStarts "Name:" l then
        (⟨((l.data.drop 6).reverse.dropWhile isTrimCh).reverse⟩, nr.2)
      else if strStarts "VmRSS:" l then
        (nr.1, stolField (l.data.drop 7))
      else nr)
    ("", 0)

/-- The previous-tick baseline subtracted for `pid`: the stored
`utime + stime`, or 0 when the pid is absent from the table. -/
def prevTotalOf (prev : ℤ → Option (ℤ × ℤ)) (pid : ℤ) : ℤ :=
  match prev pid with
  | some us => us.1 + us.2
  | none => 0

/-- The body of the `readdir` loop of `getProcesses` for one directory
entry; `none` means the entry contributes no sample this tick (name not
a pid, a vanished process, or an empty `Name:`). Field 14 and 15
(0-indexed 13 and 14) of the `stat` line are `utime` and `stime`. -/
def processEntry (fs : ProcFs) (cache : ℕ → Option String)
    (prevProcessTimes : ℤ → Option (ℤ × ℤ))
    (totalSystemMemKb : ℤ) (totalCpuTimeDelta : ℤ) (dname : String) :
    Option Process :=
  match stoiCaught dname with
  | none => none
  | some pid =>
    match fs.stat pid with
    | none => none
    | some statLine =>
      let tk := fieldsOf statLine
      let utime := readLL tk[13]?
      let stime := readLL tk[14]?
      match fs.status pid with
      | none => none
      | some statusLines =>
        let ns := statusScan statusLines
        if ns.1 = "" then none
        else
          let user := getUsername fs cache pid
          let processTimeDelta := utime + stime - prevTotalOf prevProcessTimes pid
          let cpuPercent : ℚ :=
            if totalCpuTimeDelta > 0 then
              100 * (processTimeDelta : ℚ) / (totalCpuTimeDelta : ℚ)
            else 0
          let memPercent : ℚ :=
            if totalSystemMemKb > 0 then
              100 * (ns.2 : ℚ) / (totalSystemMemKb : ℚ)
            else 0
          some { pid := pid, user := user, name := ns.1,
                 cpuPercent := cpuPercent, memPercent := memPercent,
                 memRssKb := ns.2, utime := utime, stime := stime }

/-- `getProcesses`: one sample per surviving directory entry, in
enumeration order. -/
def getProcesses (fs : ProcFs) (cache : ℕ → Option String)
    (prevProcessTimes : ℤ → Option (ℤ × ℤ))
    (totalSystemMemKb : ℤ) (totalCpuTimeDelta : ℤ) : List Process :=
  fs.entries.filterMap
    (processEntry fs cache prevProcessTimes totalSystemMemKb totalCpuTimeDelta)

/-- The `getMemoryInfo` line loop, carrying the running
`(memTotal, memAvailable)` pair and stopping early once both are
positive. -/
def getMemoryInfoAux : List String → ℤ → ℤ → ℤ × ℤ
  | [], t, a => (t, a)
  | l :: rest, t, a =>
    let tk := fieldsOf l
    let key := (tk[0]?).getD ""
    let value := readLL tk[1]?
    let t' := if key = "MemTotal:" then value else t
    let a' := if key = "MemAvailable:" then value else a
    if t' > 0 ∧ a' > 0 then (t', a') else getMemoryInfoAux rest t' a'

/-- `getMemoryInfo` over the `/proc/meminfo` lines. -/
def getMemoryInfo (lines : List String) : ℤ × ℤ :=
  getMemoryInfoAux lines 0 0

/-- The system CPU usage expression of the main loop:
`(totalDelta > 0) ? 100.0 * (totalDelta - idleDelta) / totalDelta : 0.0`. -/
def sysCpuUsageOf (totalDelta idleDelta : ℤ) : ℚ :=
  if totalDelta > 0 then
    100 * ((totalDelta : ℚ) - (idleDelta : ℚ)) / (totalDelta : ℚ)
  else 0

/-- `int barWidth = 20` of `drawSystemInfo`. -/
def barWidth : ℤ := 20

/-- An IEEE double division observed over exact rationals: a finite
quotient when the divisor is non-zero, `none` (the NaN or ±inf the
source produces, which is no rational number) when the divisor is
zero. The source never traps on division by zero; `none` records that
the division was performed with divisor zero. -/
def fdiv (a b : ℚ) : Option ℚ := if b = 0 then none else some (a / b)

/-- The three quantities `drawSystemInfo` computes while rendering. -/
structure SystemInfoRender where
  cpuBlocks : Option ℤ
  memPercent : Option ℚ
  memBlocks : Option ℤ

/-- `drawSystemInfo`: the CPU bar block count
`(int)std::round(cpuUsage / 100.0 * barWidth)`, the system memory
percentage `100.0 * (double)memUsed / (double)memTotal` — this division
has no zero guard — and the memory bar block count
`(int)std::round(memPercent / 100.0 * barWidth)` computed from it. -/
def drawSystemInfo (cpuUsage : ℚ) (memUsed memTotal : ℤ) : SystemInfoRender :=
  let cpuBlocks := (fdiv cpuUsage 100).map fun x => round (x * (barWidth : ℚ))
  let memPercent := fdiv (100 * (memUsed : ℚ)) (memTotal : ℚ)
  let memBlocks := memPercent.bind fun mp =>
    (fdiv mp 100).map fun x => round (x * (barWidth : ℚ))
  { cpuBlocks := cpuBlocks, memPercent := memPercent, memBlocks := memBlocks }

/-- The three sort modes of the monitor. -/
inductive SortMode
  | byCpu
  | byMem
  | byPid
deriving DecidableEq

/-- `compareByCpu`: strict comparator, `a.cpuPercent > b.cpuPercent`. -/
def compareByCpu (a b : Process) : Bool := a.cpuPercent > b.cpuPercent

/-- `compareByMem`: strict comparator, `a.memPercent > b.memPercent`. -/
def compareByMem (a b : Process) : Bool := a.memPercent > b.memPercent

/-- `compareByPid`: strict comparator, `a.pid < b.pid`. -/
def compareByPid (a b : Process) : Bool := a.pid < b.pid

/-- The sort dispatch of the main loop. `std::sort(begin, end, cmp)`
with strict weak order `cmp` yields a permutation ordered by the
complementary non-strict relation; it is modelled as `mergeSort` with
`le a b := ¬ cmp b a`. -/
def sortProcesses (mode : SortMode) (ps : List Process) : List Process :=
  match mode with
  | .byCpu => ps.mergeSort fun a b => !compareByCpu b a
  | .byMem => ps.mergeSort fun a b => !compareByMem b a
  | .byPid => ps.mergeSort fun a b => !compareByPid b a

/-- The end-of-tick refresh of `prevProcessTimes`: `clear()` followed by
`prevProcessTimes[p.pid] = {p.utime, p.stime}` for each sampled process
in order (a later insert overwrites an earlier one). -/
def updatePrevTimes (ps : List Process) : ℤ → Option (ℤ × ℤ) :=
  ps.foldl (fun m p pid => if pid = p.pid then some (p.utime, p.stime) else m pid)
    (fun _ => none)

/-- The data produced by one main-loop iteration. -/
structure TickResult where
  memTotal : ℤ
  memAvailable : ℤ
  memUsed : ℤ
  sysCpuUsage : ℚ
  processes : List Process
  nextPrevSys : SysCpuTimes
  nextPrevProc : ℤ → Option (ℤ × ℤ)

/-- Sections B and C of one main-loop iteration: gather memory, CPU and
process data, derive the percentages, sort by the current mode, and
replace the previous-tick state wholesale. -/
def tick (fs : ProcFs) (cache : ℕ → Option String)
    (prevSys : SysCpuTimes) (prevProc : ℤ → Option (ℤ × ℤ))
    (mode : SortMode) : TickResult :=
  let mem := getMemoryInfo fs.meminfo
  let cur := getSystemCpuTimes fs.sysStatLine
  let totalDelta := cur.total - prevSys.total
  let idleDelta := cur.idle - prevSys.idle
  let sorted := sortProcesses mode (getProcesses fs cache prevProc mem.1 totalDelta)
  { memTotal := mem.1, memAvailable := mem.2, memUsed := mem.1 - mem.2,
    sysCpuUsage := sysCpuUsageOf totalDelta idleDelta,
    processes := sorted,
    nextPrevSys := cur,
    nextPrevProc := updatePrevTimes sorted }

/-- Outcome of the `wgetch` loop of `killProcessWindow`: cancelled via
Esc, confirmed via Enter with the accumulated buffer, or still waiting
for input. -/
inductive ModalOutcome
  | cancelled
  | confirmed (buf : List Char)
  | pending (buf : List Char)
deriving DecidableEq

/-- `SIGTERM`. -/
def sigterm : ℤ := 15

/-- `isdigit(ch)` on a key code. -/
def isDigitKey (ch : ℤ) : Bool := 48 ≤ ch ∧ ch ≤ 57

/-- The `wgetch` loop of `killProcessWindow` over a queue of key codes
(27 Esc, 10 Enter, 263 ncurses `KEY_BACKSPACE`, 127 DEL): Esc cancels,
Enter confirms with the buffer accumulated so far, backspace drops the
last character when one exists, a digit is appended while the buffer
holds fewer than 19 characters, and every other key is ignored. -/
def modalLoop : List Char → List ℤ → ModalOutcome
  | buf, [] => .pending buf
  | buf, ch :: rest =>
    if ch = 27 then .cancelled
    else if ch = 10 then .confirmed buf
    else if ch = 263 ∨ ch = 127 then modalLoop buf.dropLast rest
    else if isDigitKey ch ∧ buf.length < 19 then
      modalLoop (buf ++ [Char.ofNat ch.toNat]) rest
    else modalLoop buf rest

/-- The termination requests (pid, signal) issued by one run of
`killProcessWindow` on the given key codes: none on cancel, none when
`std::stoi` on the buffer throws (empty or out-of-`int`-range buffer),
and a single `kill(pid, SIGTERM)` call otherwise. -/
def killProcessWindow (keys : List ℤ) : List (ℤ × ℤ) :=
  match modalLoop [] keys with
  | .cancelled => []
  | .pending _ => []
  | .confirmed buf =>
    match stoiCaught ⟨buf⟩ with
    | none => []
    | some pid => [(pid, sigterm)]

/-- Modelled from the spec (for comparison with the implementation's
guard): a directory-entry name "parses as a non-negative integer" when
the whole name is a non-empty decimal digit run. -/
def nameIsNonNegInt (s : String) : Bool := !s.data.isEmpty && s.data.all Char.isDigit

/-- A username cache resolving only uid 0. -/
def cacheRoot : ℕ → Option String := fun uid => if uid = 0 then some "root" else none

/-- A username cache resolving nothing. -/
def cacheEmpty : ℕ → Option String := fun _ => none

/-- A `/proc/[pid]/stat` first line with `utime = 30` (field 14) and
`stime = 10` (field 15). -/
def statLineA : String := "5 (init) S 0 0 0 0 0 0 0 0 0 0 30 10"

/-- A small consistent `/proc` snapshot: one real process (pid 5) and the
non-numeric entry "self". -/
def fsA : ProcFs where
  entries := ["self", "5"]
  stat := fun pid => if pid = 5 then some statLineA else none
  status := fun pid =>
    if pid = 5 then some ["Name:\tinit", "Uid:\t0\t0\t0\t0", "VmRSS:\t 100000 kB"]
    else none
  meminfo := ["MemTotal:       8000000 kB", "MemAvailable:   2000000 kB"]
  sysStatLine := "cpu 110 0 60 870 0 0 0 0"

/-- A snapshot whose only entry has the partially-numeric name "12x",
with files present for pid 12. -/
def fsB : ProcFs where
  entries := ["12x"]
  stat := fun pid => if pid = 12 then some "12 (x) S 0 0 0 0 0 0 0 0 0 0 7 3" else none
  status := fun pid =>
    if pid = 12 then some ["Name:\tx", "Uid:\t0\t0\t0\t0", "VmRSS:\t 64 kB"]
    else none
  meminfo := []
  sysStatLine := ""

/-- A previous-tick table charging pid 5 with `utime = 30`, `stime = 30`:
larger than the current counters of `fsA`/`statLineA`, as happens when a
pid is reused after its predecessor exits. -/
def prevReused : ℤ → Option (ℤ × ℤ) := fun pid => if pid = 5 then some (30, 30) else none

/-- The sample `fsA` yields for pid 5 under `cacheRoot` with
`totalSystemMemKb = 8000000` and `totalCpuTimeDelta = 40`. -/
def pA : Process where
  pid := 5
  user := "root"
  name := "init"
  cpuPercent := 100 * ((40 : ℤ) : ℚ) / ((40 : ℤ) : ℚ)
  memPercent := 100 * ((100000 : ℤ) : ℚ) / ((8000000 : ℤ) : ℚ)
  memRssKb := 100000
  utime := 30
  stime := 10

/-- The same sample under the empty username cache. -/
def pAu : Process := { pA with user := "unknown" }

/-- The sample `fsA` yields for pid 5 against the stale `prevReused`
baseline with `totalSystemMemKb = 1000` and `totalCpuTimeDelta = 40`:
its process delta is `40 - 60 = -20`. -/
def pC3 : Process where
  pid := 5
  user := "root"
  name := "init"
  cpuPercent := 100 * ((-20 : ℤ) : ℚ) / ((40 : ℤ) : ℚ)
  memPercent := 100 * ((100000 : ℤ) : ℚ) / ((1000 : ℤ) : ℚ)
  memRssKb := 100000
  utime := 30
  stime := 10

/-- A snapshot whose pid-7 status file carries a negative `VmRSS:`
value, which `std::stol` parses and the sampler propagates. -/
def fsC : ProcFs where
  entries := ["7"]
  stat := fun pid => if pid = 7 then some "7 (x) S 0 0 0 0 0 0 0 0 0 0 2 3" else none
  status := fun pid =>
    if pid = 7 then some ["Name:\tx", "Uid:\t0\t0", "VmRSS:\t-5 kB"]
    else none
  meminfo := []
  sysStatLine := ""

/-- The sample `fsC` yields for pid 7 under `cacheRoot` with
`totalSystemMemKb = 1000` and `totalCpuTimeDelta = 40`: its parsed
resident size is -5 KB. -/
def pCneg : Process where
  pid := 7
  user := "root"
  name := "x"
  cpuPercent := 100 * ((5 : ℤ) : ℚ) / ((40 : ℤ) : ℚ)
  memPercent := 100 * ((-5 : ℤ) : ℚ) / ((1000 : ℤ) : ℚ)
  memRssKb := -5
  utime := 2
  stime := 3

end SysMon

namespace SysMon

theorem mem_getProcesses {fs : ProcFs} {cache : ℕ → Option String}
    {prev : ℤ → Option (ℤ × ℤ)} {m td : ℤ} {p : Process} :
    p ∈ getProcesses fs cache prev m td ↔
      ∃ e ∈ fs.entries, processEntry fs cache prev m td e = some p := by
  simp [getProcesses, List.mem_filterMap]

/-- Inversion of a successful `processEntry`: how each field of the
emitted sample was produced. -/
theorem processEntry_inv {fs : ProcFs} {cache : ℕ → Option String}
    {prev : ℤ → Option (ℤ × ℤ)} {m td : ℤ} {e : String} {p : Process}
    (h : processEntry fs cache prev m td e = some p) :
    stoiCaught e = some p.pid ∧
    p.user = getUsername fs cache p.pid ∧
    (∃ lines, fs.status p.pid = some lines ∧
      p.name = (statusScan lines).1 ∧ p.memRssKb = (statusScan lines).2) ∧
    p.cpuPercent =
      (if td > 0 then
        100 * ((p.utime + p.stime - prevTotalOf prev p.pid : ℤ) : ℚ) / (td : ℚ)
      else 0) ∧
    p.memPercent = (if m > 0 then 100 * ((p.memRssKb : ℤ) : ℚ) / (m : ℚ) else 0) := by
  simp only [processEntry] at h
  split at h
  · exact absurd h (by simp)
  next pid hpid =>
    split at h
    · exact absurd h (by simp)
    next statLine hstat =>
      split at h
      · exact absurd h (by simp)
      next lines hstatus =>
        split at h
        · exact absurd h (by simp)
        next hname =>
          rw [Option.some.injEq] at h
          subst h
          exact ⟨hpid, rfl, ⟨lines, hstatus, rfl, rfl⟩, rfl, rfl⟩

theorem getProcesses_fsA :
    getProcesses fsA cacheRoot (fun _ => none) 8000000 40 = [pA] := rfl

theorem getProcesses_fsA_empty_cache :
    getProcesses fsA cacheEmpty (fun _ => none) 8000000 40 = [pAu] := rfl

theorem getProcesses_fsA_reused :
    getProcesses fsA cacheRoot prevReused 1000 40 = [pC3] := rfl

theorem getProcesses_fsC :
    getProcesses fsC cacheRoot (fun _ => none) 1000 40 = [pCneg] := rfl

/-- C1: for every process sampled in a tick, when `totalCpuDelta > 0` its
`cpuPercent` equals `100 × processDelta / totalCpuDelta` and otherwise
equals 0, and when `totalSystemMemKb > 0` its `memPercent` equals
`100 × residentKb / totalSystemMemKb` and otherwise equals 0; a
100,000 KB resident process on a system with total memory 8,000,000 KB
gets `memPercent = 1.25`. -/
theorem per_process_percent_formula :
    (∀ (fs : ProcFs) (cache : ℕ → Option String) (prev : ℤ → Option (ℤ × ℤ))
        (m td : ℤ) (p : Process), p ∈ getProcesses fs cache prev m td →
        (td > 0 →
          p.cpuPercent =
            100 * ((p.utime + p.stime - prevTotalOf prev p.pid : ℤ) : ℚ) / (td : ℚ)) ∧
        (¬ td > 0 → p.cpuPercent = 0) ∧
        (m > 0 → p.memPercent = 100 * ((p.memRssKb : ℤ) : ℚ) / (m : ℚ)) ∧
        (¬ m > 0 → p.memPercent = 0)) ∧
    (getProcesses fsA cacheRoot (fun _ => none) 8000000 40).map Process.memPercent =
      [(1.25 : ℚ)] := by
  constructor
  · intro fs cache prev m td p hp
    obtain ⟨e, -, he⟩ := mem_getProcesses.mp hp
    obtain ⟨-, -, -, hcpu, hmem⟩ := processEntry_inv he
    refine ⟨fun h => ?_, fun h => ?_, fun h => ?_, fun h => ?_⟩
    · rw [hcpu, if_pos h]
    · rw [hcpu, if_neg h]
    · rw [hmem, if_pos h]
    · rw [hmem, if_neg h]
  · rw [getProcesses_fsA]
    norm_num [pA]

theorem per_process_percent_formula_witness :
    pA.memPercent = 100 * ((pA.memRssKb : ℤ) : ℚ) / ((8000000 : ℤ) : ℚ) :=
  (per_process_percent_formula.1 fsA cacheRoot (fun _ => none) 8000000 40 pA
      (by rw [getProcesses_fsA]; exact List.mem_singleton_self _)).2.2.1 (by norm_num)

/-- C2: on every tick, when `totalCpuDelta > 0` the system-wide `cpuUsage`
equals `100 × (totalCpuDelta − idleDelta) / totalCpuDelta` and otherwise
equals 0; for the consecutive counter lines `cpu 100 0 50 850 0 0 0 0`
and `cpu 110 0 60 870 0 0 0 0` the deltas are 40 and 20 and the usage
is 50. -/
theorem sys_cpu_usage_theorem :
    (∀ (fs : ProcFs) (cache : ℕ → Option String) (prevSys : SysCpuTimes)
        (prevProc : ℤ → Option (ℤ × ℤ)) (mode : SortMode),
        (tick fs cache prevSys prevProc mode).sysCpuUsage =
          sysCpuUsageOf ((getSystemCpuTimes fs.sysStatLine).total - prevSys.total)
            ((getSystemCpuTimes fs.sysStatLine).idle - prevSys.idle)) ∧
    (∀ td idleD : ℤ,
        (td > 0 → sysCpuUsageOf td idleD = 100 * ((td : ℚ) - (idleD : ℚ)) / (td : ℚ)) ∧
        (¬ td > 0 → sysCpuUsageOf td idleD = 0)) ∧
    ((getSystemCpuTimes "cpu 110 0 60 870 0 0 0 0").total -
        (getSystemCpuTimes "cpu 100 0 50 850 0 0 0 0").total = 40 ∧
      (getSystemCpuTimes "cpu 110 0 60 870 0 0 0 0").idle -
        (getSystemCpuTimes "cpu 100 0 50 850 0 0 0 0").idle = 20 ∧
      sysCpuUsageOf 40 20 = 50) := by
  refine ⟨fun _ _ _ _ _ => rfl, fun td idleD => ⟨fun h => ?_, fun h => ?_⟩, ?_, ?_, ?_⟩
  · simp only [sysCpuUsageOf]
    rw [if_pos h]
  · simp only [sysCpuUsageOf]
    rw [if_neg h]
  · decide
  · decide
  · norm_num [sysCpuUsageOf]

theorem sys_cpu_usage_theorem_witness :
    sysCpuUsageOf 40 20 = 100 * (((40 : ℤ) : ℚ) - ((20 : ℤ) : ℚ)) / ((40 : ℤ) : ℚ) :=
  (sys_cpu_usage_theorem.2.1 40 20).1 (by norm_num)

/-- C4: the sample returned by the system CPU sampler has `total` equal
to the exact sum of its eight parsed fields
user + nice + system + idle + iowait + irq + softirq + steal; in
particular `cpu 100 0 50 850 0 0 0 0` parses to the fields
100, 0, 50, 850, 0, 0, 0, 0 with total 1000. -/
theorem total_eq_sum_fields :
    (∀ line : String,
        (getSystemCpuTimes line).total =
          (getSystemCpuTimes line).user + (getSystemCpuTimes line).nice +
            (getSystemCpuTimes line).system + (getSystemCpuTimes line).idle +
            (getSystemCpuTimes line).iowait + (getSystemCpuTimes line).irq +
            (getSystemCpuTimes line).softirq + (getSystemCpuTimes line).steal) ∧
    getSystemCpuTimes "cpu 100 0 50 850 0 0 0 0" =
      { user := 100, nice := 0, system := 50, idle := 850, iowait := 0, irq := 0,
        softirq := 0, steal := 0, total := 1000 } := by
  constructor
  · intro line
    simp only [getSystemCpuTimes]
    split <;> rfl
  · decide

/-- C3 counterexample, refuting each part of the claim at a concrete
input: (i) pid reuse — with `totalCpuDelta = 40 > 0` the pid-5 sample of
`fsA` against the stale `prevReused` baseline has `cpuPercent = -50 < 0`;
(ii) a status file whose `VmRSS:` value is negative — with
`totalSystemMemKb = 1000 > 0` the pid-7 sample of `fsC` has
`memPercent = -1/2 < 0`; (iii) a CPU-counter reset — the consecutive
parsed lines `cpu 100 0 0 0 0 0 0 0` and `cpu 10 0 0 100 0 0 0 0` give
totalDelta = 10 > 0 and idleDelta = 100, so `cpuUsage = -900 < 0`;
(iv) rendering — an unreadable memory source reports `memTotal = 0` and
`drawSystemInfo`'s unguarded memory-percentage division is still
performed, with divisor zero (a non-finite IEEE result). -/
theorem percent_nonneg_counterexample :
    (pC3 ∈ getProcesses fsA cacheRoot prevReused 1000 40 ∧ (0 : ℤ) < 40 ∧
      pC3.cpuPercent < 0) ∧
    (pCneg ∈ getProcesses fsC cacheRoot (fun _ => none) 1000 40 ∧ (0 : ℤ) < 1000 ∧
      pCneg.memPercent < 0) ∧
    ((getSystemCpuTimes "cpu 10 0 0 100 0 0 0 0").total -
        (getSystemCpuTimes "cpu 100 0 0 0 0 0 0 0").total = 10 ∧
      (getSystemCpuTimes "cpu 10 0 0 100 0 0 0 0").idle -
        (getSystemCpuTimes "cpu 100 0 0 0 0 0 0 0").idle = 100 ∧
      sysCpuUsageOf 10 100 < 0) ∧
    (getMemoryInfo [] = (0, 0) ∧ (drawSystemInfo 0 0 0).memPercent = none) := by
  refine ⟨⟨by rw [getProcesses_fsA_reused]; exact List.mem_singleton_self _,
      by norm_num, by norm_num [pC3]⟩,
    ⟨by rw [getProcesses_fsC]; exact List.mem_singleton_self _,
      by norm_num, by norm_num [pCneg]⟩,
    ⟨by decide, by decide, by norm_num [sysCpuUsageOf]⟩,
    ⟨by decide, ?_⟩⟩
  simp [drawSystemInfo, fdiv]

/-- C3 amended: `cpuPercent` is ≥ 0 whenever `totalCpuDelta > 0` and the
process delta is non-negative (pid reuse can make it negative),
`memPercent` is ≥ 0 whenever `totalSystemMemKb > 0` and the parsed
resident size is non-negative (a negative `VmRSS:` value propagates),
`cpuUsage` is ≥ 0 whenever `totalCpuDelta > 0` and
`idleDelta ≤ totalCpuDelta` (a counter reset can break this); each is
exactly 0 when its denominator is 0, the guard selecting the
division-free branch, so deriving the three values never divides by
zero; while rendering, the CPU and memory bars divide only by the
non-zero constant 100 and the memory-percentage division of
`drawSystemInfo` is finite whenever `memTotal ≠ 0` — only `memTotal = 0`
makes rendering perform a division by zero. -/
theorem percent_nonneg_amended :
    (∀ (fs : ProcFs) (cache : ℕ → Option String) (prev : ℤ → Option (ℤ × ℤ))
        (m td : ℤ) (p : Process), p ∈ getProcesses fs cache prev m td →
        (td > 0 → 0 ≤ p.utime + p.stime - prevTotalOf prev p.pid → 0 ≤ p.cpuPercent) ∧
        (td = 0 → p.cpuPercent = 0) ∧
        (m > 0 → 0 ≤ p.memRssKb → 0 ≤ p.memPercent) ∧
        (m = 0 → p.memPercent = 0)) ∧
    (∀ td idleD : ℤ,
        (td > 0 → idleD ≤ td → 0 ≤ sysCpuUsageOf td idleD) ∧
        (td = 0 → sysCpuUsageOf td idleD = 0)) ∧
    (∀ (c : ℚ) (memUsed memTotal : ℤ),
        (drawSystemInfo c memUsed memTotal).cpuBlocks.isSome = true ∧
        (memTotal ≠ 0 →
          (drawSystemInfo c memUsed memTotal).memPercent =
            some (100 * (memUsed : ℚ) / (memTotal : ℚ)) ∧
          (drawSystemInfo c memUsed memTotal).memBlocks.isSome = true)) := by
  refine ⟨?_, ?_, ?_⟩
  · intro fs cache prev m td p hp
    obtain ⟨e, -, he⟩ := mem_getProcesses.mp hp
    obtain ⟨-, -, -, hcpu, hmem⟩ := processEntry_inv he
    refine ⟨fun h hd => ?_, fun h => ?_, fun h hr => ?_, fun h => ?_⟩
    · rw [hcpu, if_pos h]
      exact div_nonneg (mul_nonneg (by norm_num) (by exact_mod_cast hd))
        (by exact_mod_cast h.le)
    · rw [hcpu, if_neg (by omega)]
    · rw [hmem, if_pos h]
      exact div_nonneg (mul_nonneg (by norm_num) (by exact_mod_cast hr))
        (by exact_mod_cast h.le)
    · rw [hmem, if_neg (by omega)]
  · intro td idleD
    refine ⟨fun h hle => ?_, fun h => ?_⟩
    · simp only [sysCpuUsageOf]
      rw [if_pos h]
      exact div_nonneg
        (mul_nonneg (by norm_num) (sub_nonneg.mpr (by exact_mod_cast hle)))
        (by exact_mod_cast h.le)
    · simp only [sysCpuUsageOf]
      rw [if_neg (by omega)]
  · intro c memUsed memTotal
    have ht : ∀ t : ℤ, t ≠ 0 → ((t : ℚ)) ≠ 0 := fun t h => Int.cast_ne_zero.mpr h
    refine ⟨?_, fun h => ⟨?_, ?_⟩⟩
    · simp [drawSystemInfo, fdiv]
    · simp [drawSystemInfo, fdiv, ht memTotal h]
    · simp [drawSystemInfo, fdiv, ht memTotal h]

theorem percent_nonneg_amended_witness :
    0 ≤ pA.cpuPercent ∧ 0 ≤ sysCpuUsageOf 40 20 ∧
    (drawSystemInfo 50 6000000 8000000).memPercent =
      some (100 * ((6000000 : ℤ) : ℚ) / ((8000000 : ℤ) : ℚ)) :=
  ⟨(percent_nonneg_amended.1 fsA cacheRoot (fun _ => none) 8000000 40 pA
      (by rw [getProcesses_fsA]; exact List.mem_singleton_self _)).1
      (by norm_num) (by decide),
    (percent_nonneg_amended.2.1 40 20).1 (by norm_num) (by norm_num),
    ((percent_nonneg_amended.2.2 50 6000000 8000000).2 (by norm_num)).1⟩

theorem foldlUpd_eq_none_iff (ps : List Process) (m0 : ℤ → Option (ℤ × ℤ)) (pid : ℤ) :
    ps.foldl (fun m p q => if q = p.pid then some (p.utime, p.stime) else m q) m0 pid
        = none ↔
      m0 pid = none ∧ ∀ p ∈ ps, p.pid ≠ pid := by
  induction ps generalizing m0 with
  | nil => simp
  | cons p ps ih =>
    rw [List.foldl_cons, ih]
    by_cases hp : pid = p.pid
    · subst hp
      simp [List.forall_mem_cons]
    · simp only [if_neg hp, List.forall_mem_cons]
      constructor
      · rintro ⟨h1, h2⟩
        exact ⟨h1, fun hh => hp hh.symm, h2⟩
      · rintro ⟨h1, -, h2⟩
        exact ⟨h1, h2⟩

theorem foldlUpd_eq_some (ps : List Process) (m0 : ℤ → Option (ℤ × ℤ)) (pid : ℤ)
    (us : ℤ × ℤ)
    (h : ps.foldl (fun m p q => if q = p.pid then some (p.utime, p.stime) else m q) m0 pid
        = some us) :
    (∃ p ∈ ps, p.pid = pid ∧ us = (p.utime, p.stime)) ∨ m0 pid = some us := by
  induction ps generalizing m0 with
  | nil => exact Or.inr h
  | cons p ps ih =>
    rw [List.foldl_cons] at h
    rcases ih _ h with h1 | h2
    · obtain ⟨q, hq, hqs⟩ := h1
      exact Or.inl ⟨q, List.mem_cons_of_mem _ hq, hqs⟩
    · by_cases hp : pid = p.pid
      · rw [if_pos hp] at h2
        exact Or.inl ⟨p, List.mem_cons_self _ _, hp.symm, (Option.some.injEq _ _ ▸ h2).symm⟩
      · rw [if_neg hp] at h2
        exact Or.inr h2

/-- C5: a pid present in the current sample but absent from the
previous-tick table gets a zero baseline, and the end-of-tick
replacement table contains exactly the pids of the current sample with
their (utime, stime) values. -/
theorem prev_table_theorem :
    (∀ (fs : ProcFs) (cache : ℕ → Option String) (prev : ℤ → Option (ℤ × ℤ))
        (m td : ℤ) (p : Process), p ∈ getProcesses fs cache prev m td →
        prev p.pid = none → td > 0 →
        p.cpuPercent = 100 * ((p.utime + p.stime : ℤ) : ℚ) / (td : ℚ)) ∧
    (∀ (ps : List Process) (pid : ℤ),
        (updatePrevTimes ps pid = none ↔ ∀ p ∈ ps, p.pid ≠ pid) ∧
        (∀ us : ℤ × ℤ, updatePrevTimes ps pid = some us →
          ∃ p ∈ ps, p.pid = pid ∧ us = (p.utime, p.stime))) ∧
    (∀ (fs : ProcFs) (cache : ℕ → Option String) (prevSys : SysCpuTimes)
        (prevProc : ℤ → Option (ℤ × ℤ)) (mode : SortMode),
        (tick fs cache prevSys prevProc mode).nextPrevProc =
          updatePrevTimes (tick fs cache prevSys prevProc mode).processes) := by
  refine ⟨?_, ?_, fun _ _ _ _ _ => rfl⟩
  · intro fs cache prev m td p hp hnone htd
    obtain ⟨e, -, he⟩ := mem_getProcesses.mp hp
    obtain ⟨-, -, -, hcpu, -⟩ := processEntry_inv he
    rw [hcpu, if_pos htd]
    simp [prevTotalOf, hnone]
  · intro ps pid
    constructor
    · rw [updatePrevTimes, foldlUpd_eq_none_iff]
      simp
    · intro us h
      rcases foldlUpd_eq_some ps _ pid us h with h1 | h2
      · exact h1
      · exact absurd h2 (by simp)

theorem prev_table_theorem_witness :
    pA.cpuPercent = 100 * ((pA.utime + pA.stime : ℤ) : ℚ) / ((40 : ℤ) : ℚ) ∧
    updatePrevTimes [pA] 7 = none :=
  ⟨prev_table_theorem.1 fsA cacheRoot (fun _ => none) 8000000 40 pA
      (by rw [getProcesses_fsA]; exact List.mem_singleton_self _) rfl (by norm_num),
    (prev_table_theorem.2.1 [pA] 7).1.mpr (by decide)⟩

/-- C9: a sampled process whose owning uid cannot be resolved through the
username cache has user field exactly "unknown". -/
theorem unresolved_user_unknown :
    ∀ (fs : ProcFs) (cache : ℕ → Option String) (prev : ℤ → Option (ℤ × ℤ))
      (m td : ℤ) (p : Process) (lines : List String),
      p ∈ getProcesses fs cache prev m td →
      fs.status p.pid = some lines →
      cache (uidFromStatus lines) = none →
      p.user = "unknown" := by
  intro fs cache prev m td p lines hp hst hc
  obtain ⟨e, -, he⟩ := mem_getProcesses.mp hp
  obtain ⟨-, huser, -, -, -⟩ := processEntry_inv he
  rw [huser]
  simp only [getUsername, hst, hc]

theorem unresolved_user_unknown_witness : pAu.user = "unknown" :=
  unresolved_user_unknown fsA cacheEmpty (fun _ => none) 8000000 40 pAu
    ["Name:\tinit", "Uid:\t0\t0\t0\t0", "VmRSS:\t 100000 kB"]
    (by rw [getProcesses_fsA_empty_cache]; exact List.mem_singleton_self _) rfl rfl

theorem lePid_trans (a b c : Process) (h1 : (!compareByPid b a) = true)
    (h2 : (!compareByPid c b) = true) : (!compareByPid c a) = true := by
  simp only [compareByPid, Bool.not_eq_true', decide_eq_false_iff_not, not_lt] at *
  omega

theorem lePid_total (a b : Process) :
    ((!compareByPid b a) || (!compareByPid a b)) = true := by
  simp only [compareByPid, Bool.or_eq_true, Bool.not_eq_true',
    decide_eq_false_iff_not, not_lt]
  omega

theorem leCpu_trans (a b c : Process) (h1 : (!compareByCpu b a) = true)
    (h2 : (!compareByCpu c b) = true) : (!compareByCpu c a) = true := by
  simp only [compareByCpu, Bool.not_eq_true', decide_eq_false_iff_not, not_lt] at *
  exact h2.trans h1

theorem leCpu_total (a b : Process) :
    ((!compareByCpu b a) || (!compareByCpu a b)) = true := by
  simp only [compareByCpu, Bool.or_eq_true, Bool.not_eq_true',
    decide_eq_false_iff_not, not_lt]
  exact le_total _ _

/-- C6: ByPidAsc sorting is idempotent, ByCpuDesc always places an element
with the numerically largest cpuPercent at the front, and every mode
returns a permutation of its input, leaving all derived field values
untouched. -/
theorem sort_engine_theorem :
    (∀ ps : List Process,
        sortProcesses .byPid (sortProcesses .byPid ps) = sortProcesses .byPid ps) ∧
    (∀ (ps tl : List Process) (hd : Process),
        sortProcesses .byCpu ps = hd :: tl → ∀ p ∈ ps, p.cpuPercent ≤ hd.cpuPercent) ∧
    (∀ (mode : SortMode) (ps : List Process), (sortProcesses mode ps).Perm ps) := by
  refine ⟨fun ps => ?_, fun ps tl hd h p hp => ?_, fun mode ps => ?_⟩
  · simp only [sortProcesses]
    exact List.mergeSort_of_sorted (List.sorted_mergeSort lePid_trans lePid_total ps)
  · simp only [sortProcesses] at h
    have hs := List.sorted_mergeSort leCpu_trans leCpu_total ps
    rw [h] at hs
    have hmem : p ∈ hd :: tl := by
      rw [← h]
      exact List.mem_mergeSort.mpr hp
    rcases List.mem_cons.mp hmem with rfl | hmem
    · exact le_refl _
    · have hle := (List.pairwise_cons.mp hs).1 p hmem
      simpa [compareByCpu, Bool.not_eq_true', decide_eq_false_iff_not, not_lt] using hle
  · cases mode <;> simp only [sortProcesses] <;> exact List.mergeSort_perm ps _

theorem sort_engine_theorem_witness : pA.cpuPercent ≤ pA.cpuPercent :=
  sort_engine_theorem.2.1 [pA] [] pA (by simp [sortProcesses]) pA
    (List.mem_singleton_self _)

theorem modalLoop_digits_esc (ds : List ℤ) (hds : ∀ d ∈ ds, isDigitKey d = true) :
    ∀ buf : List Char, modalLoop buf (ds ++ [27]) = ModalOutcome.cancelled := by
  induction ds with
  | nil => intro buf; simp [modalLoop]
  | cons d ds ih =>
    intro buf
    have hd := hds d (List.mem_cons_self _ _)
    have hds' : ∀ x ∈ ds, isDigitKey x = true :=
      fun x hx => hds x (List.mem_cons_of_mem _ hx)
    have h48 : 48 ≤ d ∧ d ≤ 57 := by
      simpa [isDigitKey, decide_eq_true_eq] using hd
    rw [List.cons_append]
    simp only [modalLoop]
    rw [if_neg (by omega), if_neg (by omega), if_neg (by omega)]
    split
    · exact ih hds' _
    · exact ih hds' _

/-- C7: the key sequence "1234" then confirm sends exactly one SIGTERM
request, to pid 1234; any digit sequence followed by the cancel key sends
zero requests; confirming with an empty buffer sends nothing and returns
silently. -/
theorem kill_modal_theorem :
    killProcessWindow [49, 50, 51, 52, 10] = [(1234, sigterm)] ∧
    (∀ ds : List ℤ, (∀ d ∈ ds, isDigitKey d = true) →
        killProcessWindow (ds ++ [27]) = []) ∧
    (∀ keys : List ℤ, modalLoop [] keys = ModalOutcome.confirmed [] →
        killProcessWindow keys = []) := by
  refine ⟨by decide, fun ds hds => ?_, fun keys h => ?_⟩
  · simp only [killProcessWindow, modalLoop_digits_esc ds hds []]
  · simp only [killProcessWindow, h]
    rfl

theorem kill_modal_theorem_witness : killProcessWindow [49, 50, 27] = [] :=
  kill_modal_theorem.2.1 [49, 50] (by decide)

/-- C8 counterexample: `fsB`'s sole directory entry is named "12x", which
does not parse as a non-negative integer, yet the sampler emits a sample
(pid 12) for it: `std::stoi` accepts any leading-digit prefix. -/
theorem numeric_guard_counterexample :
    fsB.entries = ["12x"] ∧ nameIsNonNegInt "12x" = false ∧
    (getProcesses fsB cacheRoot (fun _ => none) 0 0).map Process.pid = [12] := by
  refine ⟨rfl, by decide, by decide⟩

/-- C8 amended: a sample is emitted only for entries accepted by
`std::stoi` (an optional-sign leading-integer prefix within `int` range),
the emitted pid being the parsed value; an entry on which `stoi` throws,
such as "self", is skipped without error and never contributes a
sample. -/
theorem numeric_guard_amended :
    (∀ (fs : ProcFs) (cache : ℕ → Option String) (prev : ℤ → Option (ℤ × ℤ))
        (m td : ℤ) (p : Process), p ∈ getProcesses fs cache prev m td →
        ∃ e ∈ fs.entries, stoiCaught e = some p.pid) ∧
    (∀ (fs : ProcFs) (cache : ℕ → Option String) (prev : ℤ → Option (ℤ × ℤ))
        (m td : ℤ) (e : String), stoiCaught e = none →
        processEntry fs cache prev m td e = none) ∧
    stoiCaught "self" = none := by
  refine ⟨fun fs cache prev m td p hp => ?_, fun fs cache prev m td e he => ?_, by decide⟩
  · obtain ⟨e, hmem, hpe⟩ := mem_getProcesses.mp hp
    exact ⟨e, hmem, (processEntry_inv hpe).1⟩
  · simp only [processEntry, he]

theorem numeric_guard_amended_witness :
    processEntry fsA cacheRoot (fun _ => none) 8000000 40 "self" = none :=
  numeric_guard_amended.2.1 fsA cacheRoot (fun _ => none) 8000000 40 "self" (by decide)

theorem isDigit_toNat {c : Char} (h : c.isDigit = true) :
    48 ≤ c.toNat ∧ c.toNat ≤ 57 := by
  simp only [Char.isDigit, Bool.and_eq_true, decide_eq_true_eq, ge_iff_le] at h
  exact ⟨UInt32.le_toNat_of_le (by norm_num) h.1,
    UInt32.toNat_le_of_le (by norm_num) h.2⟩

theorem isSpaceCh_of_digit {c : Char} (h : c.isDigit = true) : isSpaceCh c = false := by
  have hb := (isDigit_toNat h).1
  rw [Bool.eq_false_iff]
  intro ht
  simp only [isSpaceCh, Bool.or_eq_true, decide_eq_true_eq] at ht
  rcases ht with ((((h1 | h1) | h1) | h1) | h1) | h1 <;>
    (subst h1; exact absurd hb (by decide))

theorem ne_dash_of_digit {c : Char} (h : c.isDigit = true) : c ≠ '-' := by
  intro he
  subst he
  exact absurd h (by decide)

theorem ne_plus_of_digit {c : Char} (h : c.isDigit = true) : c ≠ '+' := by
  intro he
  subst he
  exact absurd h (by decide)

theorem digitsVal_foldl_nonneg (ds : List Char) (hd : ∀ c ∈ ds, c.isDigit = true) :
    ∀ acc : ℤ, 0 ≤ acc →
      0 ≤ ds.foldl (fun acc c => 10 * acc + ((c.toNat : ℤ) - 48)) acc := by
  induction ds with
  | nil => intro acc h; simpa using h
  | cons c cs ih =>
    intro acc hacc
    have hc := isDigit_toNat (hd c (List.mem_cons_self _ _))
    have h48 : (48 : ℤ) ≤ (c.toNat : ℤ) := by exact_mod_cast hc.1
    rw [List.foldl_cons]
    exact ih (fun x hx => hd x (List.mem_cons_of_mem _ hx)) _ (by omega)

theorem digitsVal_nonneg (ds : List Char) (hd : ∀ c ∈ ds, c.isDigit = true) :
    0 ≤ digitsVal ds :=
  digitsVal_foldl_nonneg ds hd 0 le_rfl

theorem stoiCaught_digits (b : List Char) (hne : b ≠ [])
    (hd : ∀ c ∈ b, c.isDigit = true) (hmax : digitsVal b ≤ intMaxC) :
    stoiCaught ⟨b⟩ = some (digitsVal b) := by
  have h0 : 0 ≤ digitsVal b := digitsVal_nonneg b hd
  rcases b with _ | ⟨c, cs⟩
  · exact absurd rfl hne
  have hcd := hd c (List.mem_cons_self _ _)
  have hint : intAt (c :: cs) = some (digitsVal (c :: cs)) := by
    rw [intAt.eq_def]
    split
    next rest heq =>
      exact absurd (List.cons.injEq _ _ _ _ ▸ heq :
        c = '-' ∧ cs = rest).1 (ne_dash_of_digit hcd)
    next rest heq =>
      exact absurd (List.cons.injEq _ _ _ _ ▸ heq :
        c = '+' ∧ cs = rest).1 (ne_plus_of_digit hcd)
    next =>
      have ht : (c :: cs).takeWhile Char.isDigit = c :: cs :=
        List.takeWhile_eq_self_iff.mpr hd
      simp only [ht, List.isEmpty_cons, Bool.false_eq_true, if_false]
  have hdrop : (c :: cs).dropWhile isSpaceCh = c :: cs := by
    rw [List.dropWhile_cons, isSpaceCh_of_digit hcd]
    simp
  simp only [stoiCaught, hdrop, hint]
  rw [if_neg]
  rw [not_or, not_lt, not_lt]
  constructor
  · simp only [intMinC]
    omega
  · exact hmax

theorem modalLoop_inv (keys : List ℤ) :
    ∀ buf : List Char, buf.length ≤ 19 → (∀ c ∈ buf, c.isDigit = true) →
      ∀ b : List Char,
        (modalLoop buf keys = ModalOutcome.confirmed b ∨
          modalLoop buf keys = ModalOutcome.pending b) →
        b.length ≤ 19 ∧ ∀ c ∈ b, c.isDigit = true := by
  induction keys with
  | nil =>
    intro buf h1 h2 b hb
    simp only [modalLoop] at hb
    rcases hb with hb | hb
    · cases hb
    · cases hb
      exact ⟨h1, h2⟩
  | cons ch rest ih =>
    intro buf h1 h2 b hb
    simp only [modalLoop] at hb
    by_cases h27 : ch = 27
    · rw [if_pos h27] at hb
      rcases hb with hb | hb <;> cases hb
    rw [if_neg h27] at hb
    by_cases h10 : ch = 10
    · rw [if_pos h10] at hb
      rcases hb with hb | hb <;> cases hb
      exact ⟨h1, h2⟩
    rw [if_neg h10] at hb
    by_cases hbs : ch = 263 ∨ ch = 127
    · rw [if_pos hbs] at hb
      refine ih buf.dropLast ?_ ?_ b hb
      · rw [List.length_dropLast]
        omega
      · exact fun c hc => h2 c (List.dropLast_subset _ hc)
    rw [if_neg hbs] at hb
    by_cases hdig : isDigitKey ch = true ∧ buf.length < 19
    · rw [if_pos hdig] at hb
      refine ih (buf ++ [Char.ofNat ch.toNat]) ?_ ?_ b hb
      · rw [List.length_append, List.length_singleton]
        omega
      · intro c hc
        rcases List.mem_append.mp hc with hc | hc
        · exact h2 c hc
        · have hc' : c = Char.ofNat ch.toNat := List.mem_singleton.mp hc
          subst hc'
          have h48 : 48 ≤ ch ∧ ch ≤ 57 := by
            simpa [isDigitKey, decide_eq_true_eq] using hdig.1
          obtain ⟨hl, hr⟩ := h48
          interval_cases ch <;> decide
    · rw [if_neg hdig] at hb
      exact ih buf h1 h2 b hb

/-- C10 counterexample: ten '9' key presses then confirm reach the
confirm branch with the non-empty, fully-numeric buffer "9999999999",
yet no signal is sent: `std::stoi` throws `out_of_range` (the value
exceeds `INT_MAX`) and the `catch` branch is taken, so that branch is
reachable for a non-empty buffer. -/
theorem modal_buffer_counterexample :
    modalLoop [] [57, 57, 57, 57, 57, 57, 57, 57, 57, 57, 10] =
      ModalOutcome.confirmed ['9', '9', '9', '9', '9', '9', '9', '9', '9', '9'] ∧
    (['9', '9', '9', '9', '9', '9', '9', '9', '9', '9'] : List Char) ≠ [] ∧
    (∀ c ∈ (['9', '9', '9', '9', '9', '9', '9', '9', '9', '9'] : List Char),
        c.isDigit = true) ∧
    killProcessWindow [57, 57, 57, 57, 57, 57, 57, 57, 57, 57, 10] = [] := by
  refine ⟨by decide, by decide, by decide, by decide⟩

/-- C10 amended: every buffer reachable in the kill modal's input loop
holds at most 19 characters, all ASCII digits, so a non-empty buffer at
confirm time is always fully numeric; confirming a non-empty buffer
whose value fits a 32-bit int sends SIGTERM to exactly that value, while
longer all-digit buffers may still take the exception branch through
`out_of_range`. -/
theorem modal_buffer_amended :
    (∀ (keys : List ℤ) (b : List Char),
        (modalLoop [] keys = ModalOutcome.confirmed b ∨
          modalLoop [] keys = ModalOutcome.pending b) →
        b.length ≤ 19 ∧ ∀ c ∈ b, c.isDigit = true) ∧
    (∀ (keys : List ℤ) (b : List Char),
        modalLoop [] keys = ModalOutcome.confirmed b → b ≠ [] →
        digitsVal b ≤ intMaxC →
        killProcessWindow keys = [(digitsVal b, sigterm)]) := by
  constructor
  · intro keys b hb
    exact modalLoop_inv keys [] (by simp) (by simp) b hb
  · intro keys b hconf hne hmax
    have hinv := modalLoop_inv keys [] (by simp) (by simp) b (Or.inl hconf)
    simp only [killProcessWindow, hconf, stoiCaught_digits b hne hinv.2 hmax]

theorem modal_buffer_amended_witness :
    killProcessWindow [49, 50, 51, 52, 10] = [(digitsVal ['1', '2', '3', '4'], sigterm)] :=
  modal_buffer_amended.2 [49, 50, 51, 52, 10] ['1', '2', '3', '4'] (by decide) (by decide)
    (by decide)

end SysMon
